import Mathlib

/-! # graylog: GELF message encoding and the delivery pipeline

A shallow embedding of `graylog.go`.  Go strings are Lean strings, `int64`
and `uint` values are carried as `Int` and `Nat` (the program performs no
arithmetic on them), byte slices are lists of naturals below 256.
-/

namespace graylog

/-- A byte slice `[]byte`. -/
abbrev Bytes := List Nat

/-- A Go `interface{}` value as stored in a `map[string]interface{}`: the three
kinds `prepareMessage` stores itself (`string`, `int64`, `uint`) and a few
caller-supplied kinds; `chan` stands for a value JSON cannot represent.
A map, slice or pointer is named by its address: `object` when following its
contents never leads back to it, `cyclic` when it does, as for `m` after
`m["self"] = m`. -/
inductive Value where
  | null
  | bool (b : Bool)
  | str (s : String)
  | int64 (i : Int)
  | uint (n : Nat)
  | chan (id : Nat)
  | object (addr : Nat)
  | cyclic (addr : Nat)
  deriving DecidableEq, Repr

/-- A Go `map[string]interface{}`: finitely many entries with pairwise distinct
keys.  The order of `entries` is the order in which a `range` loop visits
them, which Go leaves unspecified; statements about a map quantify over every
such order. -/
abbrev GoMap := AList (fun _ : String => Value)

/-- The Go expression `len(m)` for a non-nil map. -/
def GoMap.len (m : GoMap) : Nat := m.entries.length

/-- The Go type `Message`; `Extra = none` is the nil map. -/
structure Message where
  Version : String
  Host : String
  ShortMessage : String
  FullMessage : String
  Timestamp : Int
  Level : Nat
  Extra : Option GoMap

/-- Keys of `m.Extra`; a nil map has none. -/
def Message.extraKeys (m : Message) : List String :=
  match m.Extra with
  | none => []
  | some extra => extra.keys

/-- The Go expression `m.Extra[k]` with its presence flag. -/
def Message.extraGet (m : Message) (k : String) : Option Value :=
  match m.Extra with
  | none => none
  | some extra => extra.lookup k

/-- The map literal of `prepareMessage` (lines 81-88). -/
def baseFields (m : Message) : GoMap :=
  (((((((∅ : GoMap).insert "version" (Value.str m.Version)).insert
    "host" (Value.str m.Host)).insert
    "short_message" (Value.str m.ShortMessage)).insert
    "full_message" (Value.str m.FullMessage)).insert
    "timestamp" (Value.int64 m.Timestamp)).insert
    "level" (Value.uint m.Level))

/-- The loop `for key, value := range extra { output["_"+key] = value }`
over the entries in visiting order. -/
def injectExtra (output : GoMap) (extra : List (Sigma fun _ : String => Value)) : GoMap :=
  extra.foldl (fun out e => out.insert ("_" ++ e.1) e.2) output

/-- The map `output` that `prepareMessage` passes to `jsoniter.Marshal`
(lines 81-92). -/
def output (m : Message) : GoMap :=
  match m.Extra with
  | none => baseFields m
  | some extra => injectExtra (baseFields m) extra.entries

/-- The function `prepareMessage`; `marshal` is `jsoniter.Marshal`, an external
library.  The result is the Go pair `([]byte, error)`. -/
def prepareMessage (marshal : GoMap → Except String Bytes) (m : Message) :
    Bytes × Option String :=
  match marshal (output m) with
  | .error err => ([], some err)
  | .ok data => (data ++ [10, 0], none)

/-- The six keys of the map literal. -/
def baseKeys : List String :=
  ["version", "host", "short_message", "full_message", "timestamp", "level"]

/-! ## Transport handle, delivery worker and dispatcher

External libraries (`jsoniter`, `net`, `os`) are parameters collected in `Env`.
Every call the program makes to them, and every line it logs, is appended to
a trace of `Event`s, so that what the worker did can be read off afterwards.

Goroutines interleave.  A call of `InitGraylog`, a call of `Send` and one
iteration of the worker loop are each one indivisible step.  A channel is a
first-in-first-out buffer; sending to a full channel and receiving from an
empty one wait, sending to and receiving from the nil channel block forever,
as the Go language specification says. -/

/-- A resolved `*net.UDPAddr`. -/
abbrev UDPAddr := String

/-- An open socket `*net.UDPConn`, named by its descriptor. -/
structure UDPConn where
  fd : Nat
  deriving DecidableEq, Repr

/-- The Go type `Endpoint`. -/
structure Endpoint where
  Address : String
  Port : Nat

/-- The Go type `Graylog`; `Client = none` is the nil pointer.  A `*Graylog`
is an `Option Graylog`, `none` being the nil handle. -/
structure Graylog where
  Client : Option UDPConn
  deriving DecidableEq, Repr

/-- A call to an external library or a logged line. -/
inductive Event where
  | marshal (fields : GoMap)
  | write (c : UDPConn) (data : Bytes)
  | close (c : UDPConn)
  | println (line : String)
  deriving DecidableEq

/-- Behaviour of the libraries the program calls.  An error is carried as its
`Error()` text.  `udpWrite` and `udpClose` may depend on everything that
happened before the call. -/
structure Env where
  marshal : GoMap → Except String Bytes
  resolveUDPAddr : String → Except String UDPAddr
  dialUDP : UDPAddr → UDPAddr → Except String UDPConn
  udpWrite : List Event → UDPConn → Bytes → Option String
  udpClose : List Event → UDPConn → Option String
  osHostname : String

/-- The run-time panic raised by dereferencing a nil pointer. -/
def nilDereference : String :=
  "runtime error: invalid memory address or nil pointer dereference"

/-- The function `newGraylog`, returning the Go pair `(*Graylog, error)`. -/
def newGraylog (env : Env) (e : Endpoint) : Option Graylog × Option String :=
  match env.resolveUDPAddr (e.Address ++ ":" ++ toString e.Port) with
  | .error err => (none, some err)
  | .ok ra =>
    match env.resolveUDPAddr ":0" with
    | .error err => (none, some err)
    | .ok la =>
      match env.dialUDP la ra with
      | .error err => (none, some err)
      | .ok c => (some { Client := some c }, none)

/-- The method `(*Graylog).deliver`: the new trace and the returned error, or
the panic message. -/
def Graylog.deliver (env : Env) (g : Option Graylog) (m : Message) (tr : List Event) :
    Except String (List Event × Option String) :=
  let tr1 := tr ++ [Event.marshal (output m)]
  match prepareMessage env.marshal m with
  | (_, some err) => .ok (tr1, some err)
  | (data, none) =>
    match g with
    | none => .error nilDereference
    | some gr =>
      match gr.Client with
      | none => .error nilDereference
      | some c => .ok (tr1 ++ [Event.write c data], env.udpWrite tr1 c data)

/-- The method `(*Graylog).close`: the new trace and the returned error, or the
panic message. -/
def Graylog.close (env : Env) (g : Option Graylog) (tr : List Event) :
    Except String (List Event × Option String) :=
  match g with
  | none => .error nilDereference
  | some gr =>
    match gr.Client with
    | some c =>
      match env.udpClose tr c with
      | some err => .ok (tr ++ [Event.close c], some err)
      | none => .ok (tr ++ [Event.close c], none)
    | none => .ok (tr, none)

/-- A buffered channel created by `make(chan Message, cap)`. -/
structure Chan where
  cap : Nat
  buf : List Message

/-- A goroutine running `graylogWorker`: either started by `go` and not yet
at its loop, or looping over the channel it read from `queue` when it entered
the loop (`none` is the nil channel). -/
inductive Worker where
  | spawned
  | ranging (ch : Option Nat)
  deriving DecidableEq, Repr

/-- The package-level variables `queue`, `g`, `hostname`, the channels created
so far (`queue = some i` points at `chans i`, `none` is the nil channel), the
worker goroutines and the trace. -/
structure State where
  queue : Option Nat
  g : Option Graylog
  hostname : String
  chans : Nat → Chan
  nchans : Nat
  workers : List Worker
  trace : List Event

/-- The state at program start: every variable holds its zero value. -/
def State.initial : State :=
  { queue := none, g := none, hostname := "", chans := fun _ => ⟨0, []⟩, nchans := 0,
    workers := [], trace := [] }

/-- What happens when a goroutine tries an operation in a given state. -/
inductive Outcome (σ : Type) where
  /-- The operation completed. -/
  | done (s : σ)
  /-- It cannot proceed in this state (full or empty channel, goroutine not
  yet started) but may later. -/
  | blocked
  /-- It can never proceed (send to or receive from the nil channel). -/
  | blockedForever
  /-- A run-time panic: the process crashes. -/
  | panics (msg : String)

/-- Replace the buffer of channel `i`. -/
def State.setBuf (st : State) (i : Nat) (buf : List Message) : State :=
  { st with chans := Function.update st.chans i { cap := (st.chans i).cap, buf := buf } }

/-- The loop body of `graylogWorker` (lines 106-114) for one received message. -/
def graylogWorker.body (env : Env) (g : Option Graylog) (message : Message)
    (tr : List Event) : Except String (List Event) :=
  match g with
  | none => .ok (tr ++ [Event.println "Warning: skipped graylog message"])
  | some _ =>
    match Graylog.deliver env g message tr with
    | .error p => .error p
    | .ok (tr1, some err) => .ok (tr1 ++ [Event.println ("Error: " ++ err)])
    | .ok (tr1, none) => .ok tr1

/-- One step of a goroutine running `graylogWorker`: entering the loop reads
`queue`; afterwards each step receives one message and runs the loop body. -/
def graylogWorker (env : Env) (st : State) : Worker → Outcome (State × Worker)
  | .spawned => .done (st, .ranging st.queue)
  | .ranging none => .blockedForever
  | .ranging (some i) =>
    match (st.chans i).buf with
    | [] => .blocked
    | message :: rest =>
      match graylogWorker.body env st.g message st.trace with
      | .error p => .panics p
      | .ok tr => .done ({ st.setBuf i rest with trace := tr }, .ranging (some i))

/-- The function `Send`, called when the clock reads `now` (Unix seconds). -/
def Send (st : State) (now : Int) (shortMessage fullMessage : String) (level : Nat)
    (extra : Option GoMap) : Outcome State :=
  let message : Message :=
    { Version := "1.1", Host := st.hostname, ShortMessage := shortMessage,
      FullMessage := fullMessage, Timestamp := now, Level := level, Extra := extra }
  match st.queue with
  | none => .blockedForever
  | some i =>
    if ((st.chans i).buf).length < (st.chans i).cap then
      .done (st.setBuf i ((st.chans i).buf ++ [message]))
    else .blocked

/-- The function `InitGraylog`. -/
def InitGraylog (env : Env) (st : State) (addr : String) (port : Nat) : State :=
  match newGraylog env { Address := addr, Port := port } with
  | (g1, some err) =>
    { st with g := g1, trace := st.trace ++ [Event.println ("Critical: " ++ err)] }
  | (g1, none) =>
    { st with
      g := g1
      hostname := env.osHostname
      queue := some st.nchans
      chans := Function.update st.chans st.nchans { cap := 100, buf := [] }
      nchans := st.nchans + 1
      workers := st.workers ++ [Worker.spawned] }

/-- What a schedule is made of: a call of `InitGraylog`, a call of `Send` at a
clock reading, or one step of worker goroutine `w`. -/
inductive Action where
  | init (addr : String) (port : Nat)
  | send (now : Int) (shortMessage fullMessage : String) (level : Nat)
      (extra : Option GoMap)
  | worker (w : Nat)

/-- One action of a schedule. -/
def step (env : Env) (st : State) : Action → Outcome State
  | .init addr port => .done (InitGraylog env st addr port)
  | .send now shortMessage fullMessage level extra =>
    Send st now shortMessage fullMessage level extra
  | .worker w =>
    match st.workers[w]? with
    | none => .blocked
    | some wk =>
      match graylogWorker env st wk with
      | .done (st1, wk1) => .done { st1 with workers := st1.workers.set w wk1 }
      | .blocked => .blocked
      | .blockedForever => .blockedForever
      | .panics p => .panics p

/-- Run a schedule; it stops at the first action that does not complete. -/
def exec (env : Env) : State → List Action → Outcome State
  | st, [] => .done st
  | st, a :: acts =>
    match step env st a with
    | .done st1 => exec env st1 acts
    | .blocked => .blocked
    | .blockedForever => .blockedForever
    | .panics p => .panics p

/-- Whether an operation completed. -/
def Outcome.isDone {σ : Type} : Outcome σ → Bool
  | .done _ => true
  | _ => false

/-- All goroutines are asleep: the goroutine making `call` cannot complete it
and no worker goroutine can take a step.  When `call` is made by the main
goroutine of a process that has no goroutines of its own besides the workers,
the Go run-time stops the process at this point with
`fatal error: all goroutines are asleep - deadlock!`. -/
def allAsleep (env : Env) (st : State) (call : Action) : Bool :=
  !(step env st call).isDone &&
    (List.range st.workers.length).all (fun w => !(step env st (.worker w)).isDone)

/-- Whether an action is a call of `InitGraylog`. -/
def Action.isInit : Action → Bool
  | .init _ _ => true
  | _ => false

/-- The messages the `Send` calls of a schedule build, in order, while the
cached hostname is `host`. -/
def sentMessages (host : String) : List Action → List Message
  | [] => []
  | .send now shortMessage fullMessage level extra :: acts =>
    { Version := "1.1", Host := host, ShortMessage := shortMessage,
      FullMessage := fullMessage, Timestamp := now, Level := level, Extra := extra }
      :: sentMessages host acts
  | _ :: acts => sentMessages host acts

/-- Payloads handed to `Write`, oldest first. -/
def writes : List Event → List Bytes
  | [] => []
  | .write _ data :: tr => data :: writes tr
  | _ :: tr => writes tr

/-- Field maps handed to `jsoniter.Marshal`, oldest first. -/
def marshalCalls : List Event → List GoMap
  | [] => []
  | .marshal fields :: tr => fields :: marshalCalls tr
  | _ :: tr => marshalCalls tr

/-- Lines logged, oldest first. -/
def printed : List Event → List String
  | [] => []
  | .println line :: tr => line :: printed tr
  | _ :: tr => printed tr

/-- Encodings of the messages whose `prepareMessage` call succeeds, in order. -/
def payloads (marshal : GoMap → Except String Bytes) : List Message → List Bytes
  | [] => []
  | m :: ms =>
    match prepareMessage marshal m with
    | (data, none) => data :: payloads marshal ms
    | (_, some _) => payloads marshal ms

/-- The dispatcher serves channel `i` through the open socket `c`: the active
handle holds `c`, `queue` is channel `i`, and every worker goroutine is either
about to enter its loop or looping over channel `i`. -/
def Serving (st : State) (i : Nat) (c : UDPConn) : Prop :=
  st.g = some { Client := some c } ∧ st.queue = some i ∧
    ∀ w ∈ st.workers, w = Worker.spawned ∨ w = Worker.ranging (some i)

/-- A schedule without calls of `InitGraylog`. -/
def NoInit (acts : List Action) : Prop := ∀ a ∈ acts, a.isInit = false

instance (acts : List Action) : Decidable (NoInit acts) :=
  inferInstanceAs (Decidable (∀ a ∈ acts, a.isInit = false))

/-- Invariant of the reachable states: no buffer exceeds its capacity, no
capacity exceeds 100, the channel in `queue` has capacity 100, and an active
handle holds a socket. -/
def Sound (st : State) : Prop :=
  (∀ j, ((st.chans j).buf).length ≤ (st.chans j).cap ∧ (st.chans j).cap ≤ 100) ∧
  (∀ i, st.queue = some i → (st.chans i).cap = 100) ∧
  (∀ gr, st.g = some gr → ∃ c, gr.Client = some c)

/-! ## A serialiser that need not return

`Env.marshal` describes the calls of `jsoniter.Marshal` that return.  On a
value that contains itself the call recurses until the goroutine stack
overflows; the run-time then ends the process and nothing is returned.  The
definitions below embed the same functions for a serialiser given as
`GoMap → Option (Except String Bytes)`, where `none` is such a call. -/

/-- The message of the run-time when a goroutine stack overflows.  It ends the
process and cannot be recovered from. -/
def stackOverflow : String := "fatal error: stack overflow"

/-- The function `prepareMessage` for a serialiser that need not return: the
Go pair `([]byte, error)`, or the message the process ends with. -/
def Overflow.prepareMessage (marshal : GoMap → Option (Except String Bytes))
    (m : Message) : Except String (Bytes × Option String) :=
  match marshal (output m) with
  | none => .error stackOverflow
  | some (.error err) => .ok ([], some err)
  | some (.ok data) => .ok (data ++ [10, 0], none)

/-- The method `(*Graylog).deliver` for a serialiser that need not return. -/
def Overflow.deliver (marshal : GoMap → Option (Except String Bytes)) (env : Env)
    (g : Option Graylog) (m : Message) (tr : List Event) :
    Except String (List Event × Option String) :=
  let tr1 := tr ++ [Event.marshal (output m)]
  match Overflow.prepareMessage marshal m with
  | .error p => .error p
  | .ok (_, some err) => .ok (tr1, some err)
  | .ok (data, none) =>
    match g with
    | none => .error nilDereference
    | some gr =>
      match gr.Client with
      | none => .error nilDereference
      | some c => .ok (tr1 ++ [Event.write c data], env.udpWrite tr1 c data)

/-- The loop body of `graylogWorker` for a serialiser that need not return. -/
def Overflow.body (marshal : GoMap → Option (Except String Bytes)) (env : Env)
    (g : Option Graylog) (message : Message) (tr : List Event) :
    Except String (List Event) :=
  match g with
  | none => .ok (tr ++ [Event.println "Warning: skipped graylog message"])
  | some _ =>
    match Overflow.deliver marshal env g message tr with
    | .error p => .error p
    | .ok (tr1, some err) => .ok (tr1 ++ [Event.println ("Error: " ++ err)])
    | .ok (tr1, none) => .ok tr1

/-- One step of a goroutine running `graylogWorker` for a serialiser that need
not return; a stack overflow ends the process as a panic does. -/
def Overflow.graylogWorker (marshal : GoMap → Option (Except String Bytes)) (env : Env)
    (st : State) : Worker → Outcome (State × Worker)
  | .spawned => .done (st, .ranging st.queue)
  | .ranging none => .blockedForever
  | .ranging (some i) =>
    match (st.chans i).buf with
    | [] => .blocked
    | message :: rest =>
      match Overflow.body marshal env st.g message st.trace with
      | .error p => .panics p
      | .ok tr => .done ({ st.setBuf i rest with trace := tr }, .ranging (some i))

/-- A worker goroutine taking `n` steps in a row; it stops at the first step
that does not complete. -/
def Overflow.run (marshal : GoMap → Option (Except String Bytes)) (env : Env) :
    Nat → State → Worker → Outcome (State × Worker)
  | 0, st, wk => .done (st, wk)
  | n + 1, st, wk =>
    match Overflow.graylogWorker marshal env st wk with
    | .done (st1, wk1) => Overflow.run marshal env n st1 wk1
    | .blocked => .blocked
    | .blockedForever => .blockedForever
    | .panics p => .panics p

/-- The payload handed to `Write` for a message: its encoding when the
serialiser returns one, nothing when it returns an error. -/
def Overflow.payload (marshal : GoMap → Option (Except String Bytes)) (m : Message) :
    Option Bytes :=
  match marshal (output m) with
  | some (.ok data) => some (data ++ [10, 0])
  | _ => none

/-! ## Sample environment, used to instantiate the theorems -/

/-- A stand-in serialiser: rejects a map holding a `chan` value, otherwise
writes the character codes of the keys, each key followed by a comma. -/
def sampleMarshal (fields : GoMap) : Except String Bytes :=
  if fields.entries.any (fun e => match e.2 with | .chan _ => true | _ => false) then
    .error "unsupported type: chan"
  else
    .ok (fields.entries.flatMap (fun e => e.1.toList.map Char.toNat ++ [44]))

/-- A sample environment: the host `nowhere` does not resolve, a write of more
than 60 bytes fails, and closing a socket that was closed before fails as in
Go's `net` package. -/
def sampleEnv : Env :=
  { marshal := sampleMarshal
    resolveUDPAddr := fun s =>
      if s = "nowhere:12201" then .error "lookup nowhere: no such host" else .ok s
    dialUDP := fun _ _ => .ok { fd := 3 }
    udpWrite := fun _ _ data => if 60 < data.length then some "message too long" else none
    udpClose := fun hist c =>
      if Event.close c ∈ hist then some "use of closed network connection" else none
    osHostname := "host1" }

/-- The message of the example call
`Send("disk full", "volume /data at 98%", 3, {"volume": "/data"})` on `host1`
when the clock reads `now`. -/
def sampleMessage (now : Int) : Message :=
  { Version := "1.1", Host := "host1", ShortMessage := "disk full",
    FullMessage := "volume /data at 98%", Timestamp := now, Level := 3,
    Extra := some ((∅ : GoMap).insert "volume" (Value.str "/data")) }

/-- What the sample serialiser writes for the field map of the example message:
the keys `_volume`, `level`, `timestamp`, `full_message`, `short_message`,
`host`, `version`, each followed by a comma. -/
def sampleData : Bytes :=
  [95, 118, 111, 108, 117, 109, 101, 44, 108, 101, 118, 101, 108, 44, 116, 105,
    109, 101, 115, 116, 97, 109, 112, 44, 102, 117, 108, 108, 95, 109, 101, 115, 115,
    97, 103, 101, 44, 115, 104, 111, 114, 116, 95, 109, 101, 115, 115, 97, 103, 101,
    44, 104, 111, 115, 116, 44, 118, 101, 114, 115, 105, 111, 110, 44]

/-- The dispatcher after `InitGraylog("127.0.0.1", 12201)` succeeded at program
start in the sample environment. -/
def sampleState : State := InitGraylog sampleEnv State.initial "127.0.0.1" 12201

/-- The dispatcher after `InitGraylog("nowhere", 12201)` failed at program start
in the sample environment. -/
def failedState : State := InitGraylog sampleEnv State.initial "nowhere" 12201

/-- The dispatcher after a successful initialisation, the worker entering its
loop, one `Send`, and a second initialisation that failed: the handle is gone,
the queue, its pending message and the worker stay. -/
def failedReinit : State :=
  match exec sampleEnv State.initial
    [.init "127.0.0.1" 12201, .worker 0, .send 1700000000 "disk full" "" 3 none,
      .init "nowhere" 12201] with
  | .done st => st
  | _ => State.initial

/-- A schedule for one producer and the worker: messages A, B, C are sent,
B carrying a value that cannot be encoded, with worker steps in between. -/
def orderSchedule : List Action :=
  [.send 1 "A" "" 3 none, .worker 0, .worker 0,
    .send 2 "B" "" 3 (some ((∅ : GoMap).insert "b" (Value.chan 7))),
    .send 3 "C" "" 3 (some ((∅ : GoMap).insert "c" (Value.bool true))),
    .worker 0, .worker 0]

/-- The state `orderSchedule` leads to from `sampleState`. -/
def orderResult : State :=
  match exec sampleEnv sampleState orderSchedule with
  | .done st => st
  | _ => State.initial

/-- Four messages wait in the queue of a running worker: A encodes and is
written, B holds a value that cannot be encoded, the encoding of C is too long
for the socket, D encodes and is written. -/
def failureState : State :=
  match exec sampleEnv sampleState
    [.worker 0, .send 1 "A" "" 3 none,
      .send 2 "B" "" 3 (some ((∅ : GoMap).insert "b" (Value.chan 7))),
      .send 3 "C" "" 3 (some ((∅ : GoMap).insert "volume" (Value.str "/data"))),
      .send 4 "D" "" 3 none] with
  | .done st => st
  | _ => State.initial

/-- A serialiser that does not return on a map holding a value that contains
itself, and otherwise does what the sample serialiser does. -/
def sampleSerialiser (fields : GoMap) : Option (Except String Bytes) :=
  if fields.entries.any (fun e => match e.2 with | .cyclic _ => true | _ => false) then
    none
  else
    some (sampleMarshal fields)

/-- Two messages wait in the queue of a running worker: the extra map of the
first holds itself under the key `self`, the second has no extras. -/
def cyclicState : State :=
  match exec sampleEnv sampleState
    [.worker 0,
      .send 1 "A" "" 3 (some ((∅ : GoMap).insert "self" (Value.cyclic 1))),
      .send 2 "D" "" 3 none] with
  | .done st => st
  | _ => State.initial

/-- One hundred calls of `Send`. -/
def hundredSends : List Action := List.replicate 100 (.send 1 "A" "" 3 none)

/-- The number of messages pending in the channel `queue` points at. -/
def pending : Outcome State → Option Nat
  | .done st =>
    match st.queue with
    | some i => some ((st.chans i).buf).length
    | none => none
  | _ => none

/-- Whether an operation has to wait. -/
def Outcome.isBlocked {σ : Type} : Outcome σ → Bool
  | .blocked => true
  | _ => false

end graylog

namespace graylog

/-! ## The field map of `prepareMessage` -/

theorem underscore_inj {a b : String} (h : "_" ++ a = "_" ++ b) : a = b := by
  have h2 := congrArg String.data h
  simp only [String.data_append] at h2
  exact String.ext (List.append_cancel_left h2)

theorem underscore_not_base (k : String) : "_" ++ k ∉ baseKeys := by
  intro h
  simp only [baseKeys, List.mem_cons, List.mem_singleton, List.not_mem_nil, or_false] at h
  rcases h with h | h | h | h | h | h <;>
    · have h2 := congrArg String.data h
      simp [String.data_append] at h2

theorem mem_baseFields (m : Message) (key : String) :
    key ∈ baseFields m ↔ key ∈ baseKeys := by
  simp only [baseFields, AList.mem_insert, baseKeys, List.mem_cons, List.mem_singleton,
    List.not_mem_nil, or_false]
  have := AList.not_mem_empty (β := fun _ : String => Value) key
  tauto

theorem len_baseFields (m : Message) : (baseFields m).len = 6 := by
  rfl

theorem mem_injectExtra (es : List (Sigma fun _ : String => Value)) (out : GoMap)
    (key : String) :
    key ∈ injectExtra out es ↔ key ∈ out ∨ ∃ e ∈ es, key = "_" ++ e.1 := by
  induction es generalizing out with
  | nil => simp [injectExtra]
  | cons e es ih =>
    have := ih (out.insert ("_" ++ e.1) e.2)
    simp only [injectExtra, List.foldl_cons] at this ⊢
    rw [this, AList.mem_insert]
    simp only [List.mem_cons, exists_eq_or_imp]
    tauto

theorem len_insert_fresh (out : GoMap) (k : String) (v : Value) (h : k ∉ out) :
    GoMap.len (out.insert k v) = out.len + 1 := by
  unfold GoMap.len
  rw [AList.insert_entries_of_neg h, List.length_cons]

theorem len_injectExtra (es : List (Sigma fun _ : String => Value)) (out : GoMap)
    (hnd : es.NodupKeys) (hfresh : ∀ e ∈ es, "_" ++ e.1 ∉ out) :
    (injectExtra out es).len = out.len + es.length := by
  induction es generalizing out with
  | nil => simp [injectExtra]
  | cons e es ih =>
    rw [List.nodupKeys_cons] at hnd
    have hstep : (injectExtra out (e :: es)) =
        injectExtra (out.insert ("_" ++ e.1) e.2) es := rfl
    rw [hstep, ih _ hnd.2, len_insert_fresh _ _ _ (hfresh e (List.mem_cons_self _ _))]
    · simp only [List.length_cons]; omega
    · intro e' he' hmem
      rw [AList.mem_insert] at hmem
      rcases hmem with heq | hin
      · exact hnd.1 (underscore_inj heq ▸ List.mem_keys_of_mem he')
      · exact hfresh e' (List.mem_cons_of_mem _ he') hin

theorem lookup_injectExtra_other (es : List (Sigma fun _ : String => Value)) (out : GoMap)
    (key : String) (h : ∀ e ∈ es, key ≠ "_" ++ e.1) :
    (injectExtra out es).lookup key = out.lookup key := by
  induction es generalizing out with
  | nil => rfl
  | cons e es ih =>
    have hstep : (injectExtra out (e :: es)) =
        injectExtra (out.insert ("_" ++ e.1) e.2) es := rfl
    rw [hstep, ih _ (fun e' he' => h e' (List.mem_cons_of_mem _ he'))]
    exact AList.lookup_insert_ne (h e (List.mem_cons_self _ _))

theorem lookup_injectExtra_mem (es : List (Sigma fun _ : String => Value)) (out : GoMap)
    (hnd : es.NodupKeys) (e : Sigma fun _ : String => Value) (he : e ∈ es) :
    (injectExtra out es).lookup ("_" ++ e.1) = some e.2 := by
  induction es generalizing out with
  | nil => cases he
  | cons e0 es ih =>
    rw [List.nodupKeys_cons] at hnd
    have hstep : (injectExtra out (e0 :: es)) =
        injectExtra (out.insert ("_" ++ e0.1) e0.2) es := rfl
    rw [hstep]
    rcases List.mem_cons.1 he with rfl | hin
    · rw [lookup_injectExtra_other]
      · exact AList.lookup_insert _
      · intro e' he' heq
        exact hnd.1 (underscore_inj heq ▸ List.mem_keys_of_mem he')
    · exact ih _ hnd.2 hin

theorem mem_output (m : Message) (key : String) :
    key ∈ output m ↔ key ∈ baseKeys ∨ ∃ k ∈ m.extraKeys, key = "_" ++ k := by
  unfold output Message.extraKeys
  cases m.Extra with
  | none => simp [mem_baseFields]
  | some extra =>
    simp only [mem_injectExtra, mem_baseFields]
    constructor
    · rintro (h | ⟨e, he, rfl⟩)
      · exact Or.inl h
      · exact Or.inr ⟨e.1, List.mem_keys_of_mem he, rfl⟩
    · rintro (h | ⟨k, hk, rfl⟩)
      · exact Or.inl h
      · obtain ⟨v, hv⟩ := List.exists_of_mem_keys hk
        exact Or.inr ⟨⟨k, v⟩, hv, rfl⟩

theorem len_output (m : Message) : (output m).len = 6 + m.extraKeys.length := by
  unfold output Message.extraKeys
  cases m.Extra with
  | none => rfl
  | some extra =>
    simp only
    rw [len_injectExtra _ _ extra.nodupKeys, len_baseFields]
    · simp [AList.keys, List.keys]
    · intro e _ hmem
      exact underscore_not_base _ ((mem_baseFields m _).1 hmem)

theorem lookup_output_extra (m : Message) (k : String) :
    (output m).lookup ("_" ++ k) = m.extraGet k := by
  unfold output Message.extraGet
  cases hE : m.Extra with
  | none =>
    simp only
    rw [AList.lookup_eq_none, mem_baseFields]
    exact underscore_not_base k
  | some extra =>
    simp only
    cases hk : extra.lookup k with
    | none =>
      rw [AList.lookup_eq_none] at hk ⊢
      rw [mem_injectExtra, mem_baseFields]
      rintro (h | ⟨e, he, heq⟩)
      · exact underscore_not_base k h
      · exact hk (AList.mem_keys.2 (underscore_inj heq ▸ List.mem_keys_of_mem he))
    | some v =>
      have hv : (⟨k, v⟩ : Sigma fun _ : String => Value) ∈ extra.entries :=
        AList.mem_lookup_iff.1 hk
      exact lookup_injectExtra_mem _ _ extra.nodupKeys ⟨k, v⟩ hv

theorem lookup_output_base (m : Message) (key : String) (hkey : key ∈ baseKeys) :
    (output m).lookup key = (baseFields m).lookup key := by
  unfold output
  cases m.Extra with
  | none => rfl
  | some extra =>
    simp only
    apply lookup_injectExtra_other
    intro e _ heq
    exact underscore_not_base e.1 (heq ▸ hkey)

theorem lookup_baseFields (m : Message) :
    (baseFields m).lookup "version" = some (Value.str m.Version) ∧
    (baseFields m).lookup "host" = some (Value.str m.Host) ∧
    (baseFields m).lookup "short_message" = some (Value.str m.ShortMessage) ∧
    (baseFields m).lookup "full_message" = some (Value.str m.FullMessage) ∧
    (baseFields m).lookup "timestamp" = some (Value.int64 m.Timestamp) ∧
    (baseFields m).lookup "level" = some (Value.uint m.Level) :=
  ⟨rfl, rfl, rfl, rfl, rfl, rfl⟩

theorem extraKeys_nodup (m : Message) : m.extraKeys.Nodup := by
  unfold Message.extraKeys
  cases m.Extra with
  | none => exact List.nodup_nil
  | some extra => exact extra.keys_nodup

/-- The field map does not depend on the order in which the `range` loop
visits `Extra`: two messages with the same fields and the same extra values
under every key yield field maps with the same value under every key. -/
theorem output_order_independent (m1 m2 : Message)
    (hV : m1.Version = m2.Version) (hH : m1.Host = m2.Host)
    (hS : m1.ShortMessage = m2.ShortMessage) (hF : m1.FullMessage = m2.FullMessage)
    (hT : m1.Timestamp = m2.Timestamp) (hL : m1.Level = m2.Level)
    (hE : ∀ k, m1.extraGet k = m2.extraGet k) (key : String) :
    (output m1).lookup key = (output m2).lookup key := by
  by_cases hb : key ∈ baseKeys
  · rw [lookup_output_base m1 key hb, lookup_output_base m2 key hb]
    unfold baseFields
    rw [hV, hH, hS, hF, hT, hL]
  · by_cases hp : ∃ k, key = "_" ++ k
    · obtain ⟨k, rfl⟩ := hp
      rw [lookup_output_extra, lookup_output_extra, hE]
    · have h1 : key ∉ output m1 := by
        rw [mem_output]
        rintro (h | ⟨k, _, hk⟩)
        · exact hb h
        · exact hp ⟨k, hk⟩
      have h2 : key ∉ output m2 := by
        rw [mem_output]
        rintro (h | ⟨k, _, hk⟩)
        · exact hb h
        · exact hp ⟨k, hk⟩
      rw [AList.lookup_eq_none.2 h1, AList.lookup_eq_none.2 h2]

/-! ## The trace projections -/

theorem writes_append (t1 t2 : List Event) : writes (t1 ++ t2) = writes t1 ++ writes t2 := by
  induction t1 with
  | nil => rfl
  | cons e t1 ih => cases e <;> simp [writes, ih]

theorem marshalCalls_append (t1 t2 : List Event) :
    marshalCalls (t1 ++ t2) = marshalCalls t1 ++ marshalCalls t2 := by
  induction t1 with
  | nil => rfl
  | cons e t1 ih => cases e <;> simp [marshalCalls, ih]

theorem printed_append (t1 t2 : List Event) :
    printed (t1 ++ t2) = printed t1 ++ printed t2 := by
  induction t1 with
  | nil => rfl
  | cons e t1 ih => cases e <;> simp [printed, ih]

theorem payloads_append (marshal : GoMap → Except String Bytes) (l1 l2 : List Message) :
    payloads marshal (l1 ++ l2) = payloads marshal l1 ++ payloads marshal l2 := by
  induction l1 with
  | nil => rfl
  | cons m l1 ih =>
    simp only [List.cons_append, payloads]
    split <;> simp [ih]

theorem sentMessages_append (host : String) (a1 a2 : List Action) :
    sentMessages host (a1 ++ a2) = sentMessages host a1 ++ sentMessages host a2 := by
  induction a1 with
  | nil => rfl
  | cons a a1 ih => cases a <;> simp [sentMessages, ih]

/-! ## The loop body of the worker -/

theorem newGraylog_cases (env : Env) (e : Endpoint) :
    (∃ err, newGraylog env e = (none, some err)) ∨
    (∃ c, newGraylog env e = (some { Client := some c }, none)) := by
  unfold newGraylog
  split
  · exact Or.inl ⟨_, rfl⟩
  · split
    · exact Or.inl ⟨_, rfl⟩
    · split
      · exact Or.inl ⟨_, rfl⟩
      · exact Or.inr ⟨_, rfl⟩

theorem prepareMessage_error (marshal : GoMap → Except String Bytes) (m : Message)
    (err : String) (h : marshal (output m) = .error err) :
    prepareMessage marshal m = ([], some err) := by
  unfold prepareMessage
  rw [h]

theorem prepareMessage_ok (marshal : GoMap → Except String Bytes) (m : Message)
    (d : Bytes) (h : marshal (output m) = .ok d) :
    prepareMessage marshal m = (d ++ [10, 0], none) := by
  unfold prepareMessage
  rw [h]

theorem body_absent (env : Env) (m : Message) (tr : List Event) :
    graylogWorker.body env none m tr =
      .ok (tr ++ [Event.println "Warning: skipped graylog message"]) := rfl

theorem body_encode_error (env : Env) (c : UDPConn) (m : Message) (tr : List Event)
    (err : String) (h : env.marshal (output m) = .error err) :
    graylogWorker.body env (some { Client := some c }) m tr =
      .ok (tr ++ [Event.marshal (output m), Event.println ("Error: " ++ err)]) := by
  simp [graylogWorker.body, Graylog.deliver, prepareMessage_error _ _ _ h]

theorem body_write_ok (env : Env) (c : UDPConn) (m : Message) (tr : List Event)
    (d : Bytes) (h : env.marshal (output m) = .ok d)
    (hw : env.udpWrite (tr ++ [Event.marshal (output m)]) c (d ++ [10, 0]) = none) :
    graylogWorker.body env (some { Client := some c }) m tr =
      .ok (tr ++ [Event.marshal (output m), Event.write c (d ++ [10, 0])]) := by
  simp [graylogWorker.body, Graylog.deliver, prepareMessage_ok _ _ _ h, hw]

theorem body_write_error (env : Env) (c : UDPConn) (m : Message) (tr : List Event)
    (d : Bytes) (err : String) (h : env.marshal (output m) = .ok d)
    (hw : env.udpWrite (tr ++ [Event.marshal (output m)]) c (d ++ [10, 0]) = some err) :
    graylogWorker.body env (some { Client := some c }) m tr =
      .ok (tr ++ [Event.marshal (output m), Event.write c (d ++ [10, 0]),
        Event.println ("Error: " ++ err)]) := by
  simp [graylogWorker.body, Graylog.deliver, prepareMessage_ok _ _ _ h, hw]

/-- With an open socket the loop body never panics; it calls the serialiser
once, and hands the encoding to `Write` exactly when there is one. -/
theorem body_active (env : Env) (c : UDPConn) (m : Message) (tr : List Event) :
    ∃ tr1, graylogWorker.body env (some { Client := some c }) m tr = .ok tr1 ∧
      marshalCalls tr1 = marshalCalls tr ++ [output m] ∧
      writes tr1 = writes tr ++ payloads env.marshal [m] := by
  cases h : env.marshal (output m) with
  | error err =>
    refine ⟨_, body_encode_error env c m tr err h, ?_, ?_⟩
    · simp [marshalCalls_append, marshalCalls]
    · simp [writes_append, writes, payloads, prepareMessage_error _ _ _ h]
  | ok d =>
    cases hw : env.udpWrite (tr ++ [Event.marshal (output m)]) c (d ++ [10, 0]) with
    | none =>
      refine ⟨_, body_write_ok env c m tr d h hw, ?_, ?_⟩
      · simp [marshalCalls_append, marshalCalls]
      · simp [writes_append, writes, payloads, prepareMessage_ok _ _ _ h]
    | some err =>
      refine ⟨_, body_write_error env c m tr d err h hw, ?_, ?_⟩
      · simp [marshalCalls_append, marshalCalls]
      · simp [writes_append, writes, payloads, prepareMessage_ok _ _ _ h]

/-! ## Steps of the dispatcher -/

@[simp] theorem setBuf_g (st : State) (i : Nat) (b : List Message) :
    (st.setBuf i b).g = st.g := rfl

@[simp] theorem setBuf_queue (st : State) (i : Nat) (b : List Message) :
    (st.setBuf i b).queue = st.queue := rfl

@[simp] theorem setBuf_hostname (st : State) (i : Nat) (b : List Message) :
    (st.setBuf i b).hostname = st.hostname := rfl

@[simp] theorem setBuf_workers (st : State) (i : Nat) (b : List Message) :
    (st.setBuf i b).workers = st.workers := rfl

@[simp] theorem setBuf_trace (st : State) (i : Nat) (b : List Message) :
    (st.setBuf i b).trace = st.trace := rfl

@[simp] theorem setBuf_nchans (st : State) (i : Nat) (b : List Message) :
    (st.setBuf i b).nchans = st.nchans := rfl

@[simp] theorem setBuf_buf (st : State) (i : Nat) (b : List Message) :
    ((st.setBuf i b).chans i).buf = b := by
  simp [State.setBuf]

@[simp] theorem setBuf_cap (st : State) (i j : Nat) (b : List Message) :
    ((st.setBuf i b).chans j).cap = (st.chans j).cap := by
  unfold State.setBuf
  by_cases h : j = i
  · subst h; simp
  · simp [Function.update_noteq h]

theorem setBuf_other (st : State) (i j : Nat) (b : List Message) (h : j ≠ i) :
    (st.setBuf i b).chans j = st.chans j := by
  simp [State.setBuf, Function.update_noteq h]

theorem Send_room (st : State) (i : Nat) (now : Int) (shortMessage fullMessage : String)
    (level : Nat) (extra : Option GoMap) (hq : st.queue = some i)
    (hroom : ((st.chans i).buf).length < (st.chans i).cap) :
    Send st now shortMessage fullMessage level extra =
      .done (st.setBuf i ((st.chans i).buf ++
        [{ Version := "1.1", Host := st.hostname, ShortMessage := shortMessage,
           FullMessage := fullMessage, Timestamp := now, Level := level,
           Extra := extra }])) := by
  simp [Send, hq, hroom]

theorem Send_full (st : State) (i : Nat) (now : Int) (shortMessage fullMessage : String)
    (level : Nat) (extra : Option GoMap) (hq : st.queue = some i)
    (hfull : ¬ ((st.chans i).buf).length < (st.chans i).cap) :
    Send st now shortMessage fullMessage level extra = .blocked := by
  simp [Send, hq, hfull]

theorem Send_nil (st : State) (now : Int) (shortMessage fullMessage : String)
    (level : Nat) (extra : Option GoMap) (hq : st.queue = none) :
    Send st now shortMessage fullMessage level extra = .blockedForever := by
  simp [Send, hq]

theorem Send_never_panics (st : State) (now : Int) (shortMessage fullMessage : String)
    (level : Nat) (extra : Option GoMap) (p : String) :
    Send st now shortMessage fullMessage level extra ≠ .panics p := by
  unfold Send
  split
  · simp
  · split <;> simp

/-- A worker step on a non-empty channel while the handle holds a socket. -/
theorem worker_active (env : Env) (st : State) (i : Nat) (c : UDPConn) (m : Message)
    (rest : List Message) (hg : st.g = some { Client := some c })
    (hbuf : (st.chans i).buf = m :: rest) :
    ∃ tr1, graylogWorker.body env st.g m st.trace = .ok tr1 ∧
      graylogWorker env st (.ranging (some i)) =
        .done ({ st.setBuf i rest with trace := tr1 }, .ranging (some i)) ∧
      marshalCalls tr1 = marshalCalls st.trace ++ [output m] ∧
      writes tr1 = writes st.trace ++ payloads env.marshal [m] := by
  obtain ⟨tr1, h1, h2, h3⟩ := body_active env c m st.trace
  rw [← hg] at h1
  refine ⟨tr1, h1, ?_, h2, h3⟩
  simp [graylogWorker, hbuf, h1]

/-- A worker step on a non-empty channel while there is no handle. -/
theorem worker_absent (env : Env) (st : State) (i : Nat) (m : Message)
    (rest : List Message) (hg : st.g = none) (hbuf : (st.chans i).buf = m :: rest) :
    graylogWorker env st (.ranging (some i)) =
      .done ({ st.setBuf i rest with
        trace := st.trace ++ [Event.println "Warning: skipped graylog message"] },
        .ranging (some i)) := by
  simp [graylogWorker, hbuf, hg, body_absent]

theorem mem_set_worker (ws : List Worker) (w : Nat) (wk x : Worker)
    (hx : x ∈ ws.set w wk) : x ∈ ws ∨ x = wk := by
  rcases List.mem_or_eq_of_mem_set hx with h | h
  · exact Or.inl h
  · exact Or.inr h

theorem step_serving (env : Env) (st : State) (i : Nat) (c : UDPConn) (a : Action)
    (hS : Serving st i c) (ha : a.isInit = false) :
    (∀ p, step env st a ≠ .panics p) ∧ step env st a ≠ .blockedForever ∧
    ∀ st1, step env st a = .done st1 →
      Serving st1 i c ∧ st1.hostname = st.hostname ∧
      writes st1.trace ++ payloads env.marshal (st1.chans i).buf =
        writes st.trace ++
          payloads env.marshal ((st.chans i).buf ++ sentMessages st.hostname [a]) ∧
      marshalCalls st1.trace ++ ((st1.chans i).buf).map output =
        marshalCalls st.trace ++
          ((st.chans i).buf ++ sentMessages st.hostname [a]).map output := by
  obtain ⟨hg, hq, hw⟩ := hS
  cases a with
  | init addr port => simp [Action.isInit] at ha
  | send now s f l e =>
    simp only [step]
    by_cases hroom : ((st.chans i).buf).length < (st.chans i).cap
    · rw [Send_room st i now s f l e hq hroom]
      refine ⟨by simp, by simp, ?_⟩
      intro st1 h
      injection h with h
      subst h
      refine ⟨⟨hg, hq, hw⟩, rfl, ?_, ?_⟩ <;> simp [sentMessages]
    · rw [Send_full st i now s f l e hq hroom]
      simp
  | worker w =>
    simp only [step]
    cases hget : st.workers[w]? with
    | none => simp
    | some wk =>
      have hmem : wk ∈ st.workers := List.getElem?_mem hget
      rcases hw wk hmem with rfl | rfl
      · simp only [graylogWorker]
        refine ⟨by simp, by simp, ?_⟩
        intro st1 h
        injection h with h
        subst h
        refine ⟨⟨hg, hq, ?_⟩, rfl, ?_, ?_⟩
        · intro x hx
          rcases mem_set_worker _ _ _ _ hx with h | h
          · exact hw x h
          · exact Or.inr (h.trans (by rw [hq]))
        · simp [sentMessages]
        · simp [sentMessages]
      · cases hbuf : (st.chans i).buf with
        | nil => simp [graylogWorker, hbuf]
        | cons m rest =>
          obtain ⟨tr1, _, hstep, hm, hwr⟩ := worker_active env st i c m rest hg hbuf
          simp only [hstep]
          refine ⟨by simp, by simp, ?_⟩
          intro st1 h
          injection h with h
          subst h
          refine ⟨⟨hg, hq, ?_⟩, rfl, ?_, ?_⟩
          · intro x hx
            rcases mem_set_worker _ _ _ _ hx with h | h
            · exact hw x h
            · exact Or.inr h
          · simp only [sentMessages, hwr, List.append_nil, setBuf_buf, List.append_assoc]
            rw [← payloads_append]
            rfl
          · simp [sentMessages, hm]



theorem exec_serving (env : Env) (acts : List Action) (st : State) (i : Nat) (c : UDPConn)
    (hS : Serving st i c) (ha : NoInit acts) :
    (∀ p, exec env st acts ≠ .panics p) ∧ exec env st acts ≠ .blockedForever ∧
    ∀ st1, exec env st acts = .done st1 →
      Serving st1 i c ∧ st1.hostname = st.hostname ∧
      writes st1.trace ++ payloads env.marshal (st1.chans i).buf =
        writes st.trace ++
          payloads env.marshal ((st.chans i).buf ++ sentMessages st.hostname acts) ∧
      marshalCalls st1.trace ++ ((st1.chans i).buf).map output =
        marshalCalls st.trace ++
          ((st.chans i).buf ++ sentMessages st.hostname acts).map output := by
  induction acts generalizing st with
  | nil =>
    refine ⟨by simp [exec], by simp [exec], ?_⟩
    intro st1 h
    simp only [exec] at h
    injection h with h
    subst h
    exact ⟨hS, rfl, by simp [sentMessages], by simp [sentMessages]⟩
  | cons a acts ih =>
    obtain ⟨hp, hb, hd⟩ := step_serving env st i c a hS (ha a (List.mem_cons_self _ _))
    have ha2 : NoInit acts := fun x hx => ha x (List.mem_cons_of_mem _ hx)
    cases hstep : step env st a with
    | panics p => exact absurd hstep (hp p)
    | blockedForever => exact absurd hstep hb
    | blocked => simp [exec, hstep]
    | done st2 =>
      obtain ⟨hS2, hh, hw2, hm2⟩ := hd st2 hstep
      obtain ⟨ip, ib, id⟩ := ih st2 hS2 ha2
      simp only [exec, hstep]
      refine ⟨ip, ib, ?_⟩
      intro st1 h
      obtain ⟨hS1, hh1, hw1, hm1⟩ := id st1 h
      refine ⟨hS1, hh1.trans hh, ?_, ?_⟩
      · rw [hw1, hh, payloads_append, ← List.append_assoc, hw2]
        have : sentMessages st.hostname (a :: acts) =
            sentMessages st.hostname [a] ++ sentMessages st.hostname acts :=
          sentMessages_append st.hostname [a] acts
        rw [this]
        simp only [payloads_append, List.append_assoc]
      · rw [hm1, hh, List.map_append, ← List.append_assoc, hm2]
        have : sentMessages st.hostname (a :: acts) =
            sentMessages st.hostname [a] ++ sentMessages st.hostname acts :=
          sentMessages_append st.hostname [a] acts
        rw [this]
        simp only [List.map_append, List.append_assoc]

theorem step_absent (env : Env) (st : State) (a : Action) (hg : st.g = none)
    (ha : a.isInit = false) :
    (∀ p, step env st a ≠ .panics p) ∧
    ∀ st1, step env st a = .done st1 →
      st1.g = none ∧ writes st1.trace = writes st.trace ∧
      marshalCalls st1.trace = marshalCalls st.trace := by
  cases a with
  | init addr port => simp [Action.isInit] at ha
  | send now s f l e =>
    simp only [step]
    refine ⟨fun p => Send_never_panics st now s f l e p, ?_⟩
    intro st1 h
    unfold Send at h
    split at h
    · simp at h
    · split at h
      · injection h with h
        subst h
        exact ⟨hg, rfl, rfl⟩
      · simp at h
  | worker w =>
    simp only [step]
    cases hget : st.workers[w]? with
    | none => simp
    | some wk =>
      cases wk with
      | spawned =>
        simp only [graylogWorker]
        refine ⟨by simp, ?_⟩
        intro st1 h
        injection h with h
        subst h
        exact ⟨hg, rfl, rfl⟩
      | ranging ch =>
        cases ch with
        | none => simp [graylogWorker]
        | some j =>
          cases hbuf : (st.chans j).buf with
          | nil => simp [graylogWorker, hbuf]
          | cons m rest =>
            simp only [worker_absent env st j m rest hg hbuf]
            refine ⟨by simp, ?_⟩
            intro st1 h
            injection h with h
            subst h
            refine ⟨hg, ?_, ?_⟩
            · simp [writes_append, writes]
            · simp [marshalCalls_append, marshalCalls]

theorem exec_absent (env : Env) (acts : List Action) (st : State) (hg : st.g = none)
    (ha : NoInit acts) :
    (∀ p, exec env st acts ≠ .panics p) ∧
    ∀ st1, exec env st acts = .done st1 →
      st1.g = none ∧ writes st1.trace = writes st.trace ∧
      marshalCalls st1.trace = marshalCalls st.trace := by
  induction acts generalizing st with
  | nil =>
    refine ⟨by simp [exec], ?_⟩
    intro st1 h
    simp only [exec] at h
    injection h with h
    subst h
    exact ⟨hg, rfl, rfl⟩
  | cons a acts ih =>
    obtain ⟨hp, hd⟩ := step_absent env st a hg (ha a (List.mem_cons_self _ _))
    have ha2 : NoInit acts := fun x hx => ha x (List.mem_cons_of_mem _ hx)
    cases hstep : step env st a with
    | panics p => exact absurd hstep (hp p)
    | blockedForever => simp [exec, hstep]
    | blocked => simp [exec, hstep]
    | done st2 =>
      obtain ⟨hg2, hw2, hm2⟩ := hd st2 hstep
      obtain ⟨ip, id⟩ := ih st2 hg2 ha2
      simp only [exec, hstep]
      refine ⟨ip, ?_⟩
      intro st1 h
      obtain ⟨hg1, hw1, hm1⟩ := id st1 h
      exact ⟨hg1, hw1.trans hw2, hm1.trans hm2⟩

theorem sound_initial : Sound State.initial := by
  refine ⟨fun j => ⟨?_, ?_⟩, ?_, ?_⟩
  · simp [State.initial]
  · simp [State.initial]
  · intro i h
    simp [State.initial] at h
  · intro gr h
    simp [State.initial] at h

theorem sound_setBuf (st : State) (i : Nat) (b : List Message) (hS : Sound st)
    (hb : b.length ≤ (st.chans i).cap) : Sound (st.setBuf i b) := by
  obtain ⟨h1, h2, h3⟩ := hS
  refine ⟨fun j => ⟨?_, ?_⟩, ?_, ?_⟩
  · by_cases hj : j = i
    · subst hj
      simpa using hb
    · rw [setBuf_other st i j b hj]
      exact (h1 j).1
  · simpa using (h1 j).2
  · intro k hk
    simpa using h2 k hk
  · intro gr hgr
    exact h3 gr hgr

theorem sound_InitGraylog (env : Env) (st : State) (addr : String) (port : Nat)
    (hS : Sound st) : Sound (InitGraylog env st addr port) := by
  obtain ⟨h1, h2, h3⟩ := hS
  unfold InitGraylog
  rcases newGraylog_cases env { Address := addr, Port := port } with ⟨err, he⟩ | ⟨c, hc⟩
  · rw [he]
    refine ⟨h1, h2, ?_⟩
    intro gr hgr
    simp at hgr
  · rw [hc]
    refine ⟨fun j => ?_, ?_, ?_⟩
    · by_cases hj : j = st.nchans
      · subst hj
        simp
      · simpa [Function.update_noteq hj] using h1 j
    · intro k hk
      simp only [Option.some.injEq] at hk
      subst hk
      simp
    · intro gr hgr
      simp only [Option.some.injEq] at hgr
      subst hgr
      exact ⟨c, rfl⟩

theorem step_sound (env : Env) (st : State) (a : Action) (hS : Sound st) :
    (∀ p, step env st a ≠ .panics p) ∧
    ∀ st1, step env st a = .done st1 → Sound st1 := by
  cases a with
  | init addr port =>
    simp only [step]
    refine ⟨by simp, ?_⟩
    intro st1 h
    injection h with h
    subst h
    exact sound_InitGraylog env st addr port hS
  | send now s f l e =>
    simp only [step]
    refine ⟨fun p => Send_never_panics st now s f l e p, ?_⟩
    intro st1 h
    unfold Send at h
    split at h
    · simp at h
    · split at h
      · rename_i hroom
        injection h with h
        subst h
        apply sound_setBuf _ _ _ hS
        simp only [List.length_append, List.length_singleton]
        omega
      · simp at h
  | worker w =>
    simp only [step]
    cases hget : st.workers[w]? with
    | none => simp
    | some wk =>
      cases wk with
      | spawned =>
        simp only [graylogWorker]
        refine ⟨by simp, ?_⟩
        intro st1 h
        injection h with h
        subst h
        exact hS
      | ranging ch =>
        cases ch with
        | none => simp [graylogWorker]
        | some j =>
          cases hbuf : (st.chans j).buf with
          | nil => simp [graylogWorker, hbuf]
          | cons m rest =>
            have hlen : rest.length ≤ (st.chans j).cap := by
              have := (hS.1 j).1
              rw [hbuf] at this
              simp only [List.length_cons] at this
              omega
            have hsb := sound_setBuf st j rest hS hlen
            cases hg : st.g with
            | none =>
              simp only [worker_absent env st j m rest hg hbuf]
              refine ⟨by simp, ?_⟩
              intro st1 h
              injection h with h
              subst h
              exact hsb
            | some gr =>
              obtain ⟨c, hc⟩ := hS.2.2 gr hg
              have hg2 : st.g = some { Client := some c } := by
                rw [hg]
                cases gr
                simp only at hc
                rw [hc]
              obtain ⟨tr1, _, hstep, _, _⟩ := worker_active env st j c m rest hg2 hbuf
              simp only [hstep]
              refine ⟨by simp, ?_⟩
              intro st1 h
              injection h with h
              subst h
              exact hsb

theorem exec_sound (env : Env) (acts : List Action) (st : State) (hS : Sound st) :
    (∀ p, exec env st acts ≠ .panics p) ∧
    ∀ st1, exec env st acts = .done st1 → Sound st1 := by
  induction acts generalizing st with
  | nil =>
    refine ⟨by simp [exec], ?_⟩
    intro st1 h
    simp only [exec] at h
    injection h with h
    subst h
    exact hS
  | cons a acts ih =>
    obtain ⟨hp, hd⟩ := step_sound env st a hS
    cases hstep : step env st a with
    | panics p => exact absurd hstep (hp p)
    | blockedForever => simp [exec, hstep]
    | blocked => simp [exec, hstep]
    | done st2 =>
      simp only [exec, hstep]
      exact ih st2 (hd st2 hstep)

theorem set_same_worker (ws : List Worker) (w : Nat) (wk : Worker)
    (h : ws[w]? = some wk) : ws.set w wk = ws := by
  induction ws generalizing w with
  | nil => rfl
  | cons x xs ih =>
    cases w with
    | zero =>
      simp only [List.getElem?_cons_zero, Option.some.injEq] at h
      simp [h]
    | succ n =>
      simp only [List.getElem?_cons_succ] at h
      simp [ih n h]

/-- Running worker `w` once per pending message empties its channel. -/
theorem drain (env : Env) (ms : List Message) (st : State) (i w : Nat) (c : UDPConn)
    (hg : st.g = some { Client := some c })
    (hw : st.workers[w]? = some (Worker.ranging (some i)))
    (hbuf : (st.chans i).buf = ms) :
    ∃ st1, exec env st (List.replicate ms.length (Action.worker w)) = .done st1 ∧
      (st1.chans i).buf = [] ∧
      st1.g = st.g ∧ st1.queue = st.queue ∧ st1.hostname = st.hostname ∧
      st1.workers = st.workers ∧
      marshalCalls st1.trace = marshalCalls st.trace ++ ms.map output ∧
      writes st1.trace = writes st.trace ++ payloads env.marshal ms := by
  induction ms generalizing st with
  | nil =>
    exact ⟨st, rfl, hbuf, rfl, rfl, rfl, rfl, by simp, by simp [payloads]⟩
  | cons m rest ih =>
    obtain ⟨tr1, _, hstep, hm, hwr⟩ := worker_active env st i c m rest hg hbuf
    have hs : step env st (Action.worker w) =
        .done { st.setBuf i rest with trace := tr1 } := by
      simp only [step, hw, hstep]
      rw [setBuf_workers, set_same_worker _ _ _ hw]
    obtain ⟨st1, h1, h2, h3, h4, h5, h6, h7, h8⟩ :=
      ih { st.setBuf i rest with trace := tr1 } hg hw (setBuf_buf st i rest)
    refine ⟨st1, ?_, h2, h3, h4, h5, h6, ?_, ?_⟩
    · simp only [List.length_cons, List.replicate_succ, exec, hs]
      exact h1
    · rw [h7]
      simp only [hm, List.map_cons, List.append_assoc, List.singleton_append]
    · rw [h8]
      simp only [hwr, List.append_assoc]
      rw [← payloads_append]
      rfl

/-! ## The worker with a serialiser that need not return -/

/-- Where the serialiser returns, the two embeddings of the loop body agree. -/
theorem Overflow_body_returns (env : Env) (g : Option Graylog) (m : Message)
    (tr : List Event) :
    Overflow.body (fun fields => some (env.marshal fields)) env g m tr =
      graylogWorker.body env g m tr := by
  cases g with
  | none => rfl
  | some gr =>
    simp only [Overflow.body, graylogWorker.body, Overflow.deliver, Graylog.deliver,
      Overflow.prepareMessage, prepareMessage]
    cases env.marshal (output m) with
    | error err => rfl
    | ok d =>
      cases gr.Client with
      | none => rfl
      | some c => rfl

/-- Where the serialiser returns, the two embeddings of the worker agree. -/
theorem Overflow_graylogWorker_returns (env : Env) (st : State) (wk : Worker) :
    Overflow.graylogWorker (fun fields => some (env.marshal fields)) env st wk =
      graylogWorker env st wk := by
  cases wk with
  | spawned => rfl
  | ranging ch =>
    cases ch with
    | none => rfl
    | some i =>
      simp only [Overflow.graylogWorker, graylogWorker, Overflow_body_returns]

theorem Overflow_body_overflow (marshal : GoMap → Option (Except String Bytes))
    (env : Env) (gr : Graylog) (m : Message) (tr : List Event)
    (h : marshal (output m) = none) :
    Overflow.body marshal env (some gr) m tr = .error stackOverflow := by
  simp [Overflow.body, Overflow.deliver, Overflow.prepareMessage, h]

theorem Overflow_body_active (marshal : GoMap → Option (Except String Bytes))
    (env : Env) (c : UDPConn) (m : Message) (tr : List Event)
    (h : (marshal (output m)).isSome = true) :
    ∃ tr1, Overflow.body marshal env (some { Client := some c }) m tr = .ok tr1 ∧
      marshalCalls tr1 = marshalCalls tr ++ [output m] ∧
      writes tr1 = writes tr ++ (Overflow.payload marshal m).toList := by
  cases hm : marshal (output m) with
  | none => rw [hm] at h; cases h
  | some r =>
    cases r with
    | error err =>
      refine ⟨tr ++ [Event.marshal (output m), Event.println ("Error: " ++ err)], ?_, ?_, ?_⟩
      · simp [Overflow.body, Overflow.deliver, Overflow.prepareMessage, hm]
      · simp [marshalCalls_append, marshalCalls]
      · simp [writes_append, writes, Overflow.payload, hm]
    | ok d =>
      cases hw : env.udpWrite (tr ++ [Event.marshal (output m)]) c (d ++ [10, 0]) with
      | none =>
        refine ⟨tr ++ [Event.marshal (output m), Event.write c (d ++ [10, 0])], ?_, ?_, ?_⟩
        · simp [Overflow.body, Overflow.deliver, Overflow.prepareMessage, hm, hw]
        · simp [marshalCalls_append, marshalCalls]
        · simp [writes_append, writes, Overflow.payload, hm]
      | some err =>
        refine ⟨tr ++ [Event.marshal (output m), Event.write c (d ++ [10, 0]),
          Event.println ("Error: " ++ err)], ?_, ?_, ?_⟩
        · simp [Overflow.body, Overflow.deliver, Overflow.prepareMessage, hm, hw]
        · simp [marshalCalls_append, marshalCalls]
        · simp [writes_append, writes, Overflow.payload, hm]

theorem setBuf_setBuf (st : State) (i : Nat) (a b : List Message) (tr : List Event) :
    ({ st.setBuf i a with trace := tr } : State).setBuf i b = { st.setBuf i b with trace := tr } := by
  simp [State.setBuf]

theorem Overflow_drain (marshal : GoMap → Option (Except String Bytes)) (env : Env)
    (ms : List Message) (st : State) (i : Nat) (c : UDPConn)
    (hg : st.g = some { Client := some c }) (hbuf : (st.chans i).buf = ms)
    (hret : ∀ m ∈ ms, (marshal (output m)).isSome = true) :
    ∃ tr1, Overflow.run marshal env ms.length st (.ranging (some i)) =
        .done ({ st.setBuf i [] with trace := tr1 }, .ranging (some i)) ∧
      marshalCalls tr1 = marshalCalls st.trace ++ ms.map output ∧
      writes tr1 = writes st.trace ++ ms.filterMap (Overflow.payload marshal) := by
  induction ms generalizing st with
  | nil =>
    refine ⟨st.trace, ?_, by simp, by simp⟩
    have : st.setBuf i [] = st := by
      cases st
      simp only [State.setBuf] at hbuf ⊢
      congr
      rw [← hbuf]
      exact Function.update_eq_self i _
    simp only [List.length_nil, Overflow.run]
    rw [this]
  | cons m rest ih =>
    obtain ⟨tr1, hb, hm, hw⟩ := Overflow_body_active marshal env c m st.trace
      (hret m (List.mem_cons_self _ _))
    rw [← hg] at hb
    have hstep : Overflow.graylogWorker marshal env st (.ranging (some i)) =
        .done ({ st.setBuf i rest with trace := tr1 }, .ranging (some i)) := by
      simp [Overflow.graylogWorker, hbuf, hb]
    obtain ⟨tr2, k1, k2, k3⟩ := ih { st.setBuf i rest with trace := tr1 } hg
      (setBuf_buf st i rest) (fun x hx => hret x (List.mem_cons_of_mem _ hx))
    refine ⟨tr2, ?_, ?_, ?_⟩
    · simp only [List.length_cons, Overflow.run, hstep]
      rw [k1, setBuf_setBuf]
    · rw [k2]
      simp only [hm, List.map_cons, List.append_assoc, List.singleton_append]
    · rw [k3]
      simp only [hw, List.append_assoc, List.filterMap_cons]
      cases Overflow.payload marshal m <;> simp

/-! ## Claims about the encoder -/

/-- C1: for every message, also with a nil or empty `Extra`, the keys of the map
handed to the serialiser are exactly the six base keys together with `"_" + k`
for each key `k` of `Extra`; the six base keys are always present, the prefixed
keys are pairwise distinct, and the map has `6 + |Extra|` keys. -/
theorem prepareMessage_key_set (m : Message) :
    (∀ key, key ∈ (output m).keys ↔
      key ∈ baseKeys ∨ ∃ k ∈ m.extraKeys, key = "_" ++ k) ∧
    (∀ key ∈ baseKeys, key ∈ (output m).keys) ∧
    (output m).keys.Perm (baseKeys ++ m.extraKeys.map (fun k => "_" ++ k)) ∧
    (output m).len = 6 + m.extraKeys.length := by
  have hmem : ∀ key, key ∈ (output m).keys ↔
      key ∈ baseKeys ∨ ∃ k ∈ m.extraKeys, key = "_" ++ k := fun key =>
    AList.mem_keys.symm.trans (mem_output m key)
  refine ⟨hmem, fun key hkey => (hmem key).2 (Or.inl hkey), ?_, len_output m⟩
  rw [List.perm_ext_iff_of_nodup (output m).keys_nodup]
  · intro key
    rw [hmem, List.mem_append, List.mem_map]
    constructor
    · rintro (h | ⟨k, hk, rfl⟩)
      · exact Or.inl h
      · exact Or.inr ⟨k, hk, rfl⟩
    · rintro (h | ⟨k, hk, rfl⟩)
      · exact Or.inl h
      · exact Or.inr ⟨k, hk, rfl⟩
  · rw [List.nodup_append]
    refine ⟨by decide, ?_, ?_⟩
    · exact (extraKeys_nodup m).map (fun a b h => underscore_inj h)
    · intro key hbase hpre
      obtain ⟨k, _, rfl⟩ := List.mem_map.1 hpre
      exact underscore_not_base k hbase

/-- C2: when the field map of `m` marshals to `d`, `prepareMessage` returns `d`
followed by the bytes `0x0A 0x00` and no error: the result is `len(d) + 2`
bytes long, starts with `d` and ends with newline then zero. -/
theorem prepareMessage_appends_terminator (marshal : GoMap → Except String Bytes)
    (m : Message) (d : Bytes) (h : marshal (output m) = .ok d) :
    prepareMessage marshal m = (d ++ [10, 0], none) ∧
    (prepareMessage marshal m).1.length = d.length + 2 ∧
    (prepareMessage marshal m).1.take d.length = d ∧
    (prepareMessage marshal m).1.drop d.length = [10, 0] := by
  have hp : prepareMessage marshal m = (d ++ [10, 0], none) := by
    unfold prepareMessage
    rw [h]
  rw [hp]
  simp

/-- Witness for C2: the sample serialiser accepts the example message. -/
theorem prepareMessage_appends_terminator_witness :
    sampleMarshal (output (sampleMessage 1700000000)) = .ok sampleData ∧
    prepareMessage sampleMarshal (sampleMessage 1700000000) = (sampleData ++ [10, 0], none) ∧
    (prepareMessage sampleMarshal (sampleMessage 1700000000)).1.length =
      sampleData.length + 2 ∧
    (prepareMessage sampleMarshal (sampleMessage 1700000000)).1.take sampleData.length =
      sampleData ∧
    (prepareMessage sampleMarshal (sampleMessage 1700000000)).1.drop sampleData.length =
      [10, 0] :=
  ⟨rfl, prepareMessage_appends_terminator sampleMarshal (sampleMessage 1700000000)
    sampleData rfl⟩

/-- C3: for every message and every key `k`, the field map holds under
`"_" + k` exactly what `Extra` holds under `k` (the value when `k` is a key of
`Extra`, nothing otherwise), and the six base fields keep the values of the
message whatever the extra keys are. -/
theorem prepareMessage_field_values (m : Message) :
    (∀ k, (output m).lookup ("_" ++ k) = m.extraGet k) ∧
    (∀ k ∈ m.extraKeys, ∃ v, m.extraGet k = some v ∧
      (output m).lookup ("_" ++ k) = some v) ∧
    (output m).lookup "version" = some (Value.str m.Version) ∧
    (output m).lookup "host" = some (Value.str m.Host) ∧
    (output m).lookup "short_message" = some (Value.str m.ShortMessage) ∧
    (output m).lookup "full_message" = some (Value.str m.FullMessage) ∧
    (output m).lookup "timestamp" = some (Value.int64 m.Timestamp) ∧
    (output m).lookup "level" = some (Value.uint m.Level) := by
  obtain ⟨h1, h2, h3, h4, h5, h6⟩ := lookup_baseFields m
  refine ⟨lookup_output_extra m, ?_, ?_, ?_, ?_, ?_, ?_, ?_⟩
  · intro k hk
    have hget : (m.extraGet k).isSome := by
      unfold Message.extraKeys at hk
      unfold Message.extraGet
      cases hE : m.Extra with
      | none => rw [hE] at hk; cases hk
      | some extra =>
        rw [hE] at hk
        exact AList.lookup_isSome.2 (AList.mem_keys.2 hk)
    obtain ⟨v, hv⟩ := Option.isSome_iff_exists.1 hget
    exact ⟨v, hv, (lookup_output_extra m k).trans hv⟩
  · rw [lookup_output_base m _ (by decide), h1]
  · rw [lookup_output_base m _ (by decide), h2]
  · rw [lookup_output_base m _ (by decide), h3]
  · rw [lookup_output_base m _ (by decide), h4]
  · rw [lookup_output_base m _ (by decide), h5]
  · rw [lookup_output_base m _ (by decide), h6]

/-! ## Claims about the dispatcher and the worker -/

/-- C4: a call of `Send` that completes (the queue exists and has room) with
cached hostname `h` at clock reading `now` enqueues exactly one message, at the
back of the queue: version "1.1", host `h`, timestamp `now`, and the short
message, full message, level and extra map of the call.  The field map built
for it holds these six values and the extras under underscore-prefixed keys,
and its encoding is the marshalled map followed by the terminator bytes. -/
theorem Send_enqueues_message (st : State) (i : Nat) (now : Int)
    (shortMessage fullMessage : String) (level : Nat) (extra : Option GoMap)
    (hq : st.queue = some i)
    (hroom : ((st.chans i).buf).length < (st.chans i).cap) :
    ∃ st1 msg, Send st now shortMessage fullMessage level extra = .done st1 ∧
      (st1.chans i).buf = (st.chans i).buf ++ [msg] ∧
      (∀ j, j ≠ i → st1.chans j = st.chans j) ∧
      msg.Version = "1.1" ∧ msg.Host = st.hostname ∧
      msg.ShortMessage = shortMessage ∧ msg.FullMessage = fullMessage ∧
      msg.Timestamp = now ∧ msg.Level = level ∧ msg.Extra = extra ∧
      (output msg).lookup "version" = some (Value.str "1.1") ∧
      (output msg).lookup "host" = some (Value.str st.hostname) ∧
      (output msg).lookup "short_message" = some (Value.str shortMessage) ∧
      (output msg).lookup "full_message" = some (Value.str fullMessage) ∧
      (output msg).lookup "timestamp" = some (Value.int64 now) ∧
      (output msg).lookup "level" = some (Value.uint level) ∧
      (∀ k, (output msg).lookup ("_" ++ k) = msg.extraGet k) ∧
      (output msg).len = 6 + msg.extraKeys.length ∧
      (∀ (marshal : GoMap → Except String Bytes) (d : Bytes),
        marshal (output msg) = .ok d → prepareMessage marshal msg = (d ++ [10, 0], none)) := by
  refine ⟨_, ⟨"1.1", st.hostname, shortMessage, fullMessage, now, level, extra⟩,
    Send_room st i now shortMessage fullMessage level extra hq hroom,
    setBuf_buf _ _ _, fun j hj => setBuf_other _ _ _ _ hj, rfl, rfl, rfl, rfl, rfl, rfl, rfl,
    ?_, ?_, ?_, ?_, ?_, ?_, lookup_output_extra _, len_output _,
    fun marshal d h => prepareMessage_ok marshal _ d h⟩
  · rw [lookup_output_base _ _ (by decide)]; rfl
  · rw [lookup_output_base _ _ (by decide)]; rfl
  · rw [lookup_output_base _ _ (by decide)]; rfl
  · rw [lookup_output_base _ _ (by decide)]; rfl
  · rw [lookup_output_base _ _ (by decide)]; rfl
  · rw [lookup_output_base _ _ (by decide)]; rfl

/-- Witness for C4: `Send("disk full", "volume /data at 98%", 3, {"volume":
"/data"})` on `host1` at clock reading 1700000000, after a successful
initialisation. -/
theorem Send_enqueues_message_witness :
    sampleState.queue = some 0 ∧ sampleState.hostname = "host1" ∧
    ((sampleState.chans 0).buf).length < (sampleState.chans 0).cap ∧
    ∃ st1 msg, Send sampleState 1700000000 "disk full" "volume /data at 98%" 3
        (some ((∅ : GoMap).insert "volume" (Value.str "/data"))) = .done st1 ∧
      (st1.chans 0).buf = (sampleState.chans 0).buf ++ [msg] ∧
      (∀ j, j ≠ 0 → st1.chans j = sampleState.chans j) ∧
      msg.Version = "1.1" ∧ msg.Host = sampleState.hostname ∧
      msg.ShortMessage = "disk full" ∧ msg.FullMessage = "volume /data at 98%" ∧
      msg.Timestamp = 1700000000 ∧ msg.Level = 3 ∧
      msg.Extra = some ((∅ : GoMap).insert "volume" (Value.str "/data")) ∧
      (output msg).lookup "version" = some (Value.str "1.1") ∧
      (output msg).lookup "host" = some (Value.str sampleState.hostname) ∧
      (output msg).lookup "short_message" = some (Value.str "disk full") ∧
      (output msg).lookup "full_message" = some (Value.str "volume /data at 98%") ∧
      (output msg).lookup "timestamp" = some (Value.int64 1700000000) ∧
      (output msg).lookup "level" = some (Value.uint 3) ∧
      (∀ k, (output msg).lookup ("_" ++ k) = msg.extraGet k) ∧
      (output msg).len = 6 + msg.extraKeys.length ∧
      (∀ (marshal : GoMap → Except String Bytes) (d : Bytes),
        marshal (output msg) = .ok d → prepareMessage marshal msg = (d ++ [10, 0], none)) :=
  ⟨rfl, rfl, by decide,
    Send_enqueues_message sampleState 0 1700000000 "disk full" "volume /data at 98%" 3
      (some ((∅ : GoMap).insert "volume" (Value.str "/data"))) rfl (by decide)⟩

/-- The example of C4 evaluated: the field map of the enqueued message and its
encoding by the sample serialiser. -/
theorem Send_example_fields :
    (output (sampleMessage 1700000000)).lookup "_volume" = some (Value.str "/data") ∧
    (output (sampleMessage 1700000000)).keys =
      ["_volume", "level", "timestamp", "full_message", "short_message", "host",
        "version"] ∧
    prepareMessage sampleMarshal (sampleMessage 1700000000) =
      (sampleData ++ [10, 0], none) :=
  ⟨by decide, by decide, rfl⟩

/-- C7: a worker that receives a message while there is no handle (`g` is nil)
discards it: the serialiser and `Write` are not called, only the warning is
logged, the message leaves the queue and is not put back, and the worker stays
in its loop ready for the next message.  Hence in every schedule of `Send`
calls and worker steps run while the handle is absent nothing panics and the
datagrams written stay what they were, whatever is enqueued. -/
theorem worker_discards_without_handle (env : Env) (st : State) (i : Nat) (m : Message)
    (rest : List Message) (hg : st.g = none) (hbuf : (st.chans i).buf = m :: rest) :
    (∃ st1, graylogWorker env st (.ranging (some i)) = .done (st1, .ranging (some i)) ∧
      st1.trace = st.trace ++ [Event.println "Warning: skipped graylog message"] ∧
      marshalCalls st1.trace = marshalCalls st.trace ∧
      writes st1.trace = writes st.trace ∧
      (st1.chans i).buf = rest ∧
      (∀ j, j ≠ i → st1.chans j = st.chans j) ∧
      st1.g = none ∧ st1.queue = st.queue) ∧
    (∀ acts, NoInit acts →
      (∀ p, exec env st acts ≠ .panics p) ∧
      ∀ st2, exec env st acts = .done st2 →
        st2.g = none ∧ writes st2.trace = writes st.trace ∧
        marshalCalls st2.trace = marshalCalls st.trace) := by
  refine ⟨⟨_, worker_absent env st i m rest hg hbuf, rfl, ?_, ?_, setBuf_buf _ _ _,
    fun j hj => setBuf_other _ _ _ _ hj, hg, rfl⟩, fun acts ha => exec_absent env acts st hg ha⟩
  · simp [marshalCalls_append, marshalCalls]
  · simp [writes_append, writes]

/-- Witness for C7: after a successful initialisation, one `Send` and a failed
second initialisation the handle is gone while the queue, its pending message
and the worker stay. -/
theorem worker_discards_without_handle_witness :
    (failedReinit.g = none ∧
      (failedReinit.chans 0).buf =
        [⟨"1.1", "host1", "disk full", "", 1700000000, 3, none⟩]) ∧
    (∃ st1, graylogWorker sampleEnv failedReinit (.ranging (some 0)) =
        .done (st1, .ranging (some 0)) ∧
      st1.trace = failedReinit.trace ++ [Event.println "Warning: skipped graylog message"] ∧
      marshalCalls st1.trace = marshalCalls failedReinit.trace ∧
      writes st1.trace = writes failedReinit.trace ∧
      (st1.chans 0).buf = [] ∧
      (∀ j, j ≠ 0 → st1.chans j = failedReinit.chans j) ∧
      st1.g = none ∧ st1.queue = failedReinit.queue) ∧
    (∀ acts, NoInit acts →
      (∀ p, exec sampleEnv failedReinit acts ≠ .panics p) ∧
      ∀ st2, exec sampleEnv failedReinit acts = .done st2 →
        st2.g = none ∧ writes st2.trace = writes failedReinit.trace ∧
        marshalCalls st2.trace = marshalCalls failedReinit.trace) :=
  ⟨⟨rfl, rfl⟩, worker_discards_without_handle sampleEnv failedReinit 0 _ [] rfl rfl⟩

/-- When opening the transport handle fails, `InitGraylog` leaves no active
handle (`g` is nil), logs the error, and leaves `queue`, the channels, the
worker goroutines and the cached hostname as they were.  At program start this
means the queue is still nil: a following `Send` blocks on it forever, and no
schedule of `Send` calls and worker steps hands anything to `Write`. -/
theorem InitGraylog_failure (env : Env) (st : State) (addr : String) (port : Nat)
    (err : String)
    (hfail : (newGraylog env { Address := addr, Port := port }).2 = some err) :
    ((InitGraylog env st addr port).g = none ∧
      (InitGraylog env st addr port).queue = st.queue ∧
      (InitGraylog env st addr port).chans = st.chans ∧
      (InitGraylog env st addr port).nchans = st.nchans ∧
      (InitGraylog env st addr port).workers = st.workers ∧
      (InitGraylog env st addr port).hostname = st.hostname ∧
      (InitGraylog env st addr port).trace =
        st.trace ++ [Event.println ("Critical: " ++ err)]) ∧
    ((InitGraylog env State.initial addr port).queue = none ∧
      (InitGraylog env State.initial addr port).workers = [] ∧
      (∀ now shortMessage fullMessage level extra,
        Send (InitGraylog env State.initial addr port) now shortMessage fullMessage level
          extra = .blockedForever) ∧
      (∀ acts, NoInit acts →
        (∀ p, exec env (InitGraylog env State.initial addr port) acts ≠ .panics p) ∧
        ∀ st2, exec env (InitGraylog env State.initial addr port) acts = .done st2 →
          writes st2.trace = [])) := by
  have key : ∀ s : State, InitGraylog env s addr port =
      { s with g := none, trace := s.trace ++ [Event.println ("Critical: " ++ err)] } := by
    intro s
    unfold InitGraylog
    rcases newGraylog_cases env { Address := addr, Port := port } with ⟨e, he⟩ | ⟨c, hc⟩
    · rw [he] at hfail ⊢
      simp only [Option.some.injEq] at hfail
      subst hfail
      rfl
    · rw [hc] at hfail
      simp at hfail
  refine ⟨?_, ?_⟩
  · rw [key st]
    exact ⟨rfl, rfl, rfl, rfl, rfl, rfl, rfl⟩
  · rw [key State.initial]
    refine ⟨rfl, rfl, fun now s f l e => Send_nil _ now s f l e rfl, ?_⟩
    intro acts ha
    obtain ⟨hp, hd⟩ := exec_absent env acts _ (rfl :
      ({ State.initial with g := none, trace := State.initial.trace ++
        [Event.println ("Critical: " ++ err)] } : State).g = none) ha
    refine ⟨hp, fun st2 h => ?_⟩
    rw [(hd st2 h).2.1]
    rfl

/-- The failure lemma at the host `nowhere`, which does not resolve. -/
theorem InitGraylog_failure_sample :
    (newGraylog sampleEnv { Address := "nowhere", Port := 12201 }).2 =
      some "lookup nowhere: no such host" ∧
    (InitGraylog sampleEnv sampleState "nowhere" 12201).g = none ∧
    (InitGraylog sampleEnv sampleState "nowhere" 12201).queue = sampleState.queue ∧
    (InitGraylog sampleEnv sampleState "nowhere" 12201).workers = sampleState.workers ∧
    (∀ now shortMessage fullMessage level extra,
      Send (InitGraylog sampleEnv State.initial "nowhere" 12201) now shortMessage
        fullMessage level extra = .blockedForever) :=
  ⟨rfl,
    (InitGraylog_failure sampleEnv sampleState "nowhere" 12201 _ rfl).1.1,
    (InitGraylog_failure sampleEnv sampleState "nowhere" 12201 _ rfl).1.2.1,
    (InitGraylog_failure sampleEnv sampleState "nowhere" 12201 _ rfl).1.2.2.2.2.1,
    (InitGraylog_failure sampleEnv sampleState "nowhere" 12201 _ rfl).2.2.2.1⟩

/-- C8 at `InitGraylog("nowhere", 12201)` made at program start, followed by
`Send("disk full", "", 3, nil)`: opening the handle fails, `g` and `queue` are
nil, no channel and no worker exist and the hostname is not set; nothing is
written; but `Send` does not return: it blocks forever on the nil queue, and
with no worker to run all goroutines are asleep, which stops the process. -/
theorem Send_after_failed_init_deadlocks :
    (newGraylog sampleEnv { Address := "nowhere", Port := 12201 }).2 =
      some "lookup nowhere: no such host" ∧
    failedState.g = none ∧ failedState.queue = none ∧ failedState.nchans = 0 ∧
    failedState.workers = [] ∧ failedState.hostname = "" ∧
    failedState.trace = [Event.println "Critical: lookup nowhere: no such host"] ∧
    writes failedState.trace = [] ∧
    Send failedState 1700000000 "disk full" "" 3 none = .blockedForever ∧
    allAsleep sampleEnv failedState (.send 1700000000 "disk full" "" 3 none) = true :=
  ⟨rfl, rfl, rfl, rfl, rfl, rfl, rfl, rfl, rfl, rfl⟩

/-- C9, as amended: `close` on a present handle returns no error and calls
nothing when the handle holds no socket; when it holds a socket it calls that
socket's `Close` exactly once and returns what `Close` returns, nil or the
error, unchanged. -/
theorem close_returns_socket_result (env : Env) (gr : Graylog) (tr : List Event) :
    (gr.Client = none → Graylog.close env (some gr) tr = .ok (tr, none)) ∧
    (∀ c, gr.Client = some c →
      Graylog.close env (some gr) tr = .ok (tr ++ [Event.close c], env.udpClose tr c)) := by
  refine ⟨fun h => ?_, fun c h => ?_⟩
  · simp [Graylog.close, h]
  · unfold Graylog.close
    simp only [h]
    cases env.udpClose tr c <;> rfl

/-- C9 fails as stated: `close` on the nil handle panics with a nil pointer
dereference, and where a second `Close` of a released socket reports an error,
as Go's `net` package does, the second `close` returns that error. -/
theorem close_not_idempotent :
    Graylog.close sampleEnv none [] = .error nilDereference ∧
    Graylog.close sampleEnv (some { Client := some { fd := 3 } }) [] =
      .ok ([Event.close { fd := 3 }], none) ∧
    Graylog.close sampleEnv (some { Client := some { fd := 3 } }) [Event.close { fd := 3 }] =
      .ok ([Event.close { fd := 3 }, Event.close { fd := 3 }],
        some "use of closed network connection") :=
  ⟨rfl, rfl, rfl⟩

theorem payloads_eq_filterMap (marshal : GoMap → Except String Bytes) (ms : List Message) :
    payloads marshal ms = ms.filterMap (fun m =>
      match marshal (output m) with
      | .ok d => some (d ++ [10, 0])
      | .error _ => none) := by
  induction ms with
  | nil => rfl
  | cons m ms ih =>
    cases h : marshal (output m) with
    | error err => simp [payloads, prepareMessage_error _ _ _ h, h, ih]
    | ok d => simp [payloads, prepareMessage_ok _ _ _ h, h, ih]

/-- C5: while the dispatcher serves its queue through an open socket, in every
schedule of `Send` calls and worker steps the payloads handed to `Write`,
followed by the encodings of the messages still pending, are the encodings of
the messages that were pending at the start followed by those of the messages
sent, in the order sent, one per message whose encoding succeeds.  So the
payloads written are always an initial part of that sequence, in the same
order and without repetition, and all of it once the queue is empty. -/
theorem delivery_preserves_order (env : Env) (st st1 : State) (i : Nat) (c : UDPConn)
    (acts : List Action) (hS : Serving st i c) (ha : NoInit acts)
    (hex : exec env st acts = .done st1) :
    writes st1.trace ++ payloads env.marshal (st1.chans i).buf =
      writes st.trace ++
        payloads env.marshal ((st.chans i).buf ++ sentMessages st.hostname acts) ∧
    ((st1.chans i).buf = [] →
      writes st1.trace = writes st.trace ++
        payloads env.marshal ((st.chans i).buf ++ sentMessages st.hostname acts)) := by
  have h := ((exec_serving env acts st i c hS ha).2.2 st1 hex).2.2.1
  refine ⟨h, fun hempty => ?_⟩
  rw [hempty] at h
  simpa [payloads] using h

/-- Witness for C5: three messages A, B, C are sent, B holding a value that
cannot be encoded; the worker takes them in turn and writes the encoding of A,
then that of C. -/
theorem delivery_preserves_order_witness :
    Serving sampleState 0 { fd := 3 } ∧ NoInit orderSchedule ∧
    exec sampleEnv sampleState orderSchedule = .done orderResult ∧
    (orderResult.chans 0).buf = [] ∧
    writes orderResult.trace =
      [[108, 101, 118, 101, 108, 44, 116, 105, 109, 101, 115, 116, 97, 109, 112, 44,
          102, 117, 108, 108, 95, 109, 101, 115, 115, 97, 103, 101, 44, 115, 104, 111,
          114, 116, 95, 109, 101, 115, 115, 97, 103, 101, 44, 104, 111, 115, 116, 44,
          118, 101, 114, 115, 105, 111, 110, 44, 10, 0],
        [95, 99, 44, 108, 101, 118, 101, 108, 44, 116, 105, 109, 101, 115, 116, 97,
          109, 112, 44, 102, 117, 108, 108, 95, 109, 101, 115, 115, 97, 103, 101, 44,
          115, 104, 111, 114, 116, 95, 109, 101, 115, 115, 97, 103, 101, 44, 104, 111,
          115, 116, 44, 118, 101, 114, 115, 105, 111, 110, 44, 10, 0]] ∧
    writes orderResult.trace = writes sampleState.trace ++
      payloads sampleEnv.marshal
        ((sampleState.chans 0).buf ++ sentMessages sampleState.hostname orderSchedule) :=
  ⟨⟨rfl, rfl, by decide⟩, by decide, rfl, rfl, by decide,
    (delivery_preserves_order sampleEnv sampleState orderResult 0 { fd := 3 } orderSchedule
      ⟨rfl, rfl, by decide⟩ (by decide) rfl).2 rfl⟩

theorem worker_progress (env : Env) (st : State) (i : Nat) (m : Message)
    (rest : List Message) (hS : Sound st) (hbuf : (st.chans i).buf = m :: rest) :
    ∃ tr1, graylogWorker env st (.ranging (some i)) =
      .done ({ st.setBuf i rest with trace := tr1 }, .ranging (some i)) := by
  cases hg : st.g with
  | none => exact ⟨_, worker_absent env st i m rest hg hbuf⟩
  | some gr =>
    obtain ⟨c, hc⟩ := hS.2.2 gr hg
    have hg2 : st.g = some { Client := some c } := by
      rw [hg]
      cases gr
      simp only at hc
      rw [hc]
    obtain ⟨tr1, _, hstep, _, _⟩ := worker_active env st i c m rest hg2 hbuf
    exact ⟨tr1, hstep⟩

/-- C10: in every state reached from program start, whatever the schedule of
initialisations, `Send` calls and worker steps, no channel holds more than 100
pending messages.  Once a queue exists it has capacity 100: a `Send` made while
fewer than 100 messages are pending completes at once and puts its message at
the back of the queue; a `Send` made while exactly 100 are pending waits, its
message neither enqueued nor lost, and as soon as a worker has taken one
message out it completes and enqueues the message. -/
theorem queue_capacity (env : Env) (acts : List Action) (st : State)
    (hex : exec env State.initial acts = .done st) :
    (∀ j, ((st.chans j).buf).length ≤ 100) ∧
    ∀ i, st.queue = some i →
      (st.chans i).cap = 100 ∧
      ∀ now shortMessage fullMessage level extra,
        (((st.chans i).buf).length < 100 →
          Send st now shortMessage fullMessage level extra =
            .done (st.setBuf i ((st.chans i).buf ++
              [⟨"1.1", st.hostname, shortMessage, fullMessage, now, level, extra⟩]))) ∧
        (((st.chans i).buf).length = 100 →
          Send st now shortMessage fullMessage level extra = .blocked ∧
          ∃ st1, graylogWorker env st (.ranging (some i)) =
              .done (st1, .ranging (some i)) ∧
            ((st1.chans i).buf).length = 99 ∧
            Send st1 now shortMessage fullMessage level extra =
              .done (st1.setBuf i ((st1.chans i).buf ++
                [⟨"1.1", st1.hostname, shortMessage, fullMessage, now, level, extra⟩]))) := by
  have hS : Sound st := (exec_sound env acts State.initial sound_initial).2 st hex
  refine ⟨fun j => le_trans (hS.1 j).1 (hS.1 j).2, ?_⟩
  intro i hq
  have hcap := hS.2.1 i hq
  refine ⟨hcap, ?_⟩
  intro now s f l e
  refine ⟨fun hlt => Send_room st i now s f l e hq (by omega), fun hfull => ?_⟩
  refine ⟨Send_full st i now s f l e hq (by omega), ?_⟩
  cases hbuf : (st.chans i).buf with
  | nil => rw [hbuf] at hfull; simp at hfull
  | cons m rest =>
    obtain ⟨tr1, hstep⟩ := worker_progress env st i m rest hS hbuf
    have hlen : rest.length = 99 := by
      rw [hbuf] at hfull
      simpa using hfull
    refine ⟨_, hstep, ?_, ?_⟩
    · simp [hlen]
    · have hroom : ((({ st.setBuf i rest with trace := tr1 } : State).chans i).buf).length <
          (({ st.setBuf i rest with trace := tr1 } : State).chans i).cap := by
        show ((st.setBuf i rest).chans i).buf.length < ((st.setBuf i rest).chans i).cap
        rw [setBuf_buf, setBuf_cap]
        omega
      exact Send_room { st.setBuf i rest with trace := tr1 } i now s f l e hq hroom

/-- Witness for C10: the state after a successful initialisation. -/
theorem queue_capacity_witness :
    exec sampleEnv State.initial [.init "127.0.0.1" 12201] = .done sampleState ∧
    (∀ j, ((sampleState.chans j).buf).length ≤ 100) ∧
    (sampleState.chans 0).cap = 100 :=
  ⟨rfl, (queue_capacity sampleEnv [.init "127.0.0.1" 12201] sampleState rfl).1,
    ((queue_capacity sampleEnv [.init "127.0.0.1" 12201] sampleState rfl).2 0 rfl).1⟩

set_option maxRecDepth 100000

/-- The boundary of C10 evaluated: after one hundred calls of `Send` with no
worker step one hundred messages are pending and one more call has to wait;
after a worker step it completes and again one hundred are pending. -/
theorem queue_boundary :
    pending (exec sampleEnv sampleState hundredSends) = some 100 ∧
    (exec sampleEnv sampleState (hundredSends ++ [.send 2 "B" "" 3 none])).isBlocked = true ∧
    pending (exec sampleEnv sampleState
      (hundredSends ++ [.worker 0, .worker 0, .send 2 "B" "" 3 none])) = some 100 := by
  decide

theorem Send_isDone_trace (st : State) (tr : List Event) (now : Int)
    (shortMessage fullMessage : String) (level : Nat) (extra : Option GoMap) :
    (Send { st with trace := tr } now shortMessage fullMessage level extra).isDone =
      (Send st now shortMessage fullMessage level extra).isDone := by
  unfold Send
  cases st.queue with
  | none => rfl
  | some i =>
    simp only
    split <;> rfl

/-- C6, as amended: with an open socket, a worker that finds the messages `ms`
in its queue, on each of which the serialiser returns (an encoding or an
error), handles all of them whatever is returned as an error: taking one step
per message completes, leaves the queue empty and the worker in its loop; the
serialiser was called once for each message, in order; `Write` was called once
for each message that has an encoding, with that encoding, and not at all for
one whose encoding failed; nothing is retried, and what is written for the
later messages does not depend on the earlier ones.  Under every other
behaviour of the serialiser and of `Write` the worker makes the same serialiser
calls and ends in the same state but for the trace, so a later `Send` completes
in the one case exactly when it does in the other. -/
theorem worker_survives_failures (marshal : GoMap → Option (Except String Bytes))
    (env : Env) (st : State) (i : Nat) (c : UDPConn) (ms : List Message)
    (hg : st.g = some { Client := some c }) (hbuf : (st.chans i).buf = ms)
    (hret : ∀ m ∈ ms, (marshal (output m)).isSome = true) :
    ∃ st1, Overflow.run marshal env ms.length st (.ranging (some i)) =
        .done (st1, .ranging (some i)) ∧
      (st1.chans i).buf = [] ∧
      marshalCalls st1.trace = marshalCalls st.trace ++ ms.map output ∧
      writes st1.trace = writes st.trace ++ ms.filterMap (Overflow.payload marshal) ∧
      (∀ pre post, ms = pre ++ post →
        writes st1.trace = writes st.trace ++ pre.filterMap (Overflow.payload marshal) ++
          post.filterMap (Overflow.payload marshal)) ∧
      (∀ (marshal2 : GoMap → Option (Except String Bytes)) (env2 : Env),
        (∀ m ∈ ms, (marshal2 (output m)).isSome = true) →
        ∃ st2, Overflow.run marshal2 env2 ms.length st (.ranging (some i)) =
            .done (st2, .ranging (some i)) ∧
          st2 = { st1 with trace := st2.trace } ∧
          marshalCalls st2.trace = marshalCalls st1.trace ∧
          (marshal2 = marshal → writes st2.trace = writes st1.trace) ∧
          ∀ now shortMessage fullMessage level extra,
            (Send st2 now shortMessage fullMessage level extra).isDone =
              (Send st1 now shortMessage fullMessage level extra).isDone) := by
  obtain ⟨tr1, h1, h2, h3⟩ := Overflow_drain marshal env ms st i c hg hbuf hret
  refine ⟨_, h1, setBuf_buf _ _ _, h2, h3, ?_, ?_⟩
  · intro pre post hms
    show writes tr1 = _
    rw [h3, hms, List.filterMap_append, List.append_assoc]
  · intro marshal2 env2 hret2
    obtain ⟨tr2, k1, k2, k3⟩ := Overflow_drain marshal2 env2 ms st i c hg hbuf hret2
    refine ⟨_, k1, rfl, ?_, ?_, ?_⟩
    · show marshalCalls tr2 = marshalCalls tr1
      rw [k2, h2]
    · intro heq
      show writes tr2 = writes tr1
      rw [k3, h3, heq]
    · intro now s f l e
      exact (Send_isDone_trace (st.setBuf i []) tr2 now s f l e).trans
        (Send_isDone_trace (st.setBuf i []) tr1 now s f l e).symm

/-- Witness for C6: of four queued messages the second cannot be encoded and the
write of the third fails; the serialiser returns on all four, all four reach
it, three reach `Write`, two errors are logged and the queue is empty. -/
theorem worker_survives_failures_witness :
    (failureState.g = some { Client := some { fd := 3 } } ∧
      ((failureState.chans 0).buf).length = 4 ∧
      ∀ m ∈ (failureState.chans 0).buf, (sampleSerialiser (output m)).isSome = true) ∧
    (∃ st1, Overflow.run sampleSerialiser sampleEnv ((failureState.chans 0).buf).length
        failureState (.ranging (some 0)) = .done (st1, .ranging (some 0)) ∧
      (st1.chans 0).buf = [] ∧
      (marshalCalls st1.trace).length = 4 ∧
      (writes st1.trace).length = 3 ∧
      printed st1.trace = ["Error: unsupported type: chan", "Error: message too long"]) := by
  refine ⟨⟨rfl, rfl, by decide⟩, ?_⟩
  obtain ⟨st1, h1, h2, h4, h5, _⟩ :=
    worker_survives_failures sampleSerialiser sampleEnv failureState 0 { fd := 3 }
      (failureState.chans 0).buf rfl rfl (by decide)
  refine ⟨st1, h1, h2, ?_, ?_, ?_⟩
  · rw [h4]; rfl
  · rw [h5]; rfl
  · have h0 : Overflow.run sampleSerialiser sampleEnv ((failureState.chans 0).buf).length
        failureState (.ranging (some 0)) =
        .done ((match Overflow.run sampleSerialiser sampleEnv
          ((failureState.chans 0).buf).length failureState (.ranging (some 0)) with
          | .done (s, _) => s
          | _ => State.initial), .ranging (some 0)) := rfl
    rw [h0] at h1
    injection h1 with h1
    injection h1 with h1 _
    rw [← h1]
    rfl

/-- C6 fails as stated: a message whose extra map holds itself is queued in
front of another one.  The serialiser does not return on it: the worker step
that takes it ends the process with a stack overflow, no error is logged, and
the message behind it is never handled. -/
theorem worker_dies_on_cyclic_extra :
    cyclicState.g = some { Client := some { fd := 3 } } ∧
    ((cyclicState.chans 0).buf).map (fun m => m.ShortMessage) = ["A", "D"] ∧
    ((cyclicState.chans 0).buf).map (fun m => (sampleSerialiser (output m)).isSome) =
      [false, true] ∧
    Overflow.graylogWorker sampleSerialiser sampleEnv cyclicState (.ranging (some 0)) =
      .panics stackOverflow ∧
    Overflow.run sampleSerialiser sampleEnv 2 cyclicState (.ranging (some 0)) =
      .panics stackOverflow :=
  ⟨rfl, rfl, rfl, rfl, rfl⟩

end graylog
